import Mathlib

/-!
Verification of the redundancy-resolution core of `snacdb/curation_redundant.py`.

The Python source is shallowly embedded: pure computation is translated to
Lean functions; filesystem reads, the external FoldSeek process and exception
control flow are made explicit (an unreadable file becomes `Option.none`, a
caught exception becomes an explicit branch).  Machine floats only carry
similarity scores here, so they are modelled as exact rationals.
-/

namespace SnacDB

/-! ## Completeness scorer (`get_structure_completeness`) -/

/-- One atom position: the three coordinate components, with `none` standing
for a not-a-number component (`np.isnan` is the only observation the code
makes about coordinate values). -/
structure Atom where
  x : Option ℚ
  y : Option ℚ
  z : Option ℚ
deriving DecidableEq

/-- `np.isnan(...).any` over one atom's components. -/
def Atom.hasNaN (a : Atom) : Bool :=
  a.x.isNone || a.y.isNone || a.z.isNone

/-- A residue row of the `atom37` tensor: the list of atom slots
(slot index 1 is the CA backbone-reference atom). -/
abbrev Residue := List Atom

/-- A chain's `atom37` coordinate tensor: one row per residue. -/
abbrev Atom37 := List Residue

/-- `len(coords)` together with `coords[:, 1, :]` and the missing-CA count.
Indexing column 1 demands the backbone slot in every residue row; a too-short
row is the `IndexError` path of the Python code (numpy arrays are
rectangular, so a malformed shape fails on all rows at once; the ragged list
model subsumes that).  On success returns
`(len(coords), np.isnan(ca_coords).any(axis=1).sum())`. -/
def chainCounts (coords : Atom37) : Option (Nat × Nat) :=
  if coords.all (fun res => 2 ≤ res.length) then
    some (coords.length,
      (coords.filter (fun res => (res.getD 1 ⟨none, none, none⟩).hasNaN)).length)
  else
    none

/-- One chain's entry in the loaded dictionary: the value behind the
`atom37` key, or `none` when that key is absent. -/
abbrev ChainData := Option Atom37

/-- The loop of `get_structure_completeness` over `data.items()`; a `none`
from `chainCounts` is the exception caught by the enclosing `try`, which
discards the partial sums and yields `(0, 0)`. -/
def scanChains : List ChainData → Nat → Nat → Nat × Nat
  | [], total, missing => (total, missing)
  | none :: rest, total, missing => scanChains rest total missing
  | some coords :: rest, total, missing =>
    match chainCounts coords with
    | some (t, m) => scanChains rest (total + t) (missing + m)
    | none => (0, 0)

/-- `get_structure_completeness`: a `none` input is the unreadable-file path
(`np.load` raised), otherwise the chain dictionary in iteration order. -/
def get_structure_completeness (data : Option (List ChainData)) : Nat × Nat :=
  match data with
  | none => (0, 0)
  | some chains => scanChains chains 0 0

/-! ## Priority ranker (`structure_priority`) -/

/-- Python `str.split(sep)` for a nonempty `sep`, over character lists:
cut at the leftmost occurrence of `sep`, skip it, continue after it
(non-overlapping, left to right).  The `Nat` bound makes the recursion
structural; any bound of at least the list's length gives the same result,
since consuming an occurrence of a nonempty separator shortens the input. -/
def splitSepBounded (sep : List Char) : Nat → List Char → List (List Char)
  | 0, rest => [rest]
  | fuel + 1, l =>
    match l with
    | [] => [[]]
    | c :: cs =>
      if sep.isPrefixOf (c :: cs) then
        [] :: splitSepBounded sep fuel ((c :: cs).drop sep.length)
      else
        match splitSepBounded sep fuel cs with
        | seg :: segs => (c :: seg) :: segs
        | [] => [[c]]

/-- Python `s.split(sep)`.  An empty separator raises `ValueError` in
Python; the code only splits on `"-BIO"`, `"-ASU"` and `"-"`, so that path
never runs and is mapped to the identity segmentation. -/
def pySplit (sep s : String) : List String :=
  if sep.toList.isEmpty then [s]
  else (splitSepBounded sep.toList s.toList.length s.toList).map List.asString

/-- Python `marker in s` together with `s.split(marker)[1]`: the piece
between the first and the second occurrence of `marker` (the rest of the
string when `marker` occurs once), or `none` when `marker` is absent. -/
def markerSplit (marker s : String) : Option String :=
  match pySplit marker s with
  | _ :: tail :: _ => some tail
  | _ => none

/-- The digits of a Python decimal integer literal. -/
def digitsToNat? : List Char → Option Nat
  | [] => none
  | cs =>
    if cs.all Char.isDigit then
      some (cs.foldl (fun acc c => acc * 10 + (c.toNat - 48)) 0)
    else none

/-- The whitespace stripping Python `int(...)` performs on its argument. -/
def stripEdgeWhitespace (cs : List Char) : List Char :=
  ((cs.dropWhile Char.isWhitespace).reverse.dropWhile Char.isWhitespace).reverse

/-- Python `int(...)` on a text token: optional surrounding whitespace,
optional sign, then decimal digits; `none` is the `ValueError` path.
(PEP 515 underscore grouping is not modelled; no such token occurs in
structure names.) -/
def pyInt (s : String) : Option Int :=
  match stripEdgeWhitespace s.toList with
  | '-' :: cs => (digitsToNat? cs).map (fun n => -(n : Int))
  | '+' :: cs => (digitsToNat? cs).map (fun n => (n : Int))
  | cs => (digitsToNat? cs).map (fun n => (n : Int))

/-- `int(struct_name.split(marker)[1].split('-')[0])`:
`none` on a missing marker or an unparsable instance-number token. -/
def instanceNum (marker s : String) : Option Int :=
  (markerSplit marker s).bind fun tail => pyInt ((pySplit "-" tail).headD "")

/-- `structure_priority`, with the completeness metrics of the structure's
coordinate file passed in explicitly (the Python function obtains them by
calling `get_structure_completeness` on `<name>-atom37.npy`; the file system
read is kept outside the pure score computation). -/
def structure_priority (struct_name : String) (total_res missing_res : Int) : Int :=
  let score := total_res * 500 - missing_res * 100
  if (markerSplit "-BIO" struct_name).isSome then
    match instanceNum "-BIO" struct_name with
    | some n => score + 1000 - n
    | none => score + 1000
  else if (markerSplit "-ASU" struct_name).isSome then
    match instanceNum "-ASU" struct_name with
    | some n => score + 500 - n
    | none => score + 500
  else score

/-- Modelled from the spec: the type adjustment as the spec words it —
`+1000 - n` for a BIO marker with instance number `n`, `+500 - n` for an ASU
marker otherwise, the bare bonus when `n` does not parse, and nothing for an
untyped name.  Stated separately so the source-derived `structure_priority`
can be proved to refine it. -/
def specTypeAdjustment (struct_name : String) : Int :=
  if (markerSplit "-BIO" struct_name).isSome then
    1000 - (instanceNum "-BIO" struct_name).getD 0
  else if (markerSplit "-ASU" struct_name).isSome then
    500 - (instanceNum "-ASU" struct_name).getD 0
  else 0

/-! ## Redundancy resolver (loop over `redundant_pairs`) -/

/-- A redundancy edge `(query_id, target_id, max_tm)`. -/
abbrev Edge := String × String × ℚ

/-- One iteration of the greedy loop: skip when either endpoint is already
marked, otherwise mark the target when the query has strictly higher
priority and mark the query otherwise.  `prio` models
`struct_priority_map.get(_, 0)` as a total function. -/
def resolveStep (prio : String → Int) (removed : Finset String) (e : Edge) : Finset String :=
  if e.1 ∈ removed ∨ e.2.1 ∈ removed then removed
  else if prio e.2.1 < prio e.1 then insert e.2.1 removed
  else insert e.1 removed

/-- The greedy pass over the edges in discovery order, started from an
arbitrary removal set. -/
def resolveFrom (prio : String → Int) (removed : Finset String) (edges : List Edge) :
    Finset String :=
  edges.foldl (resolveStep prio) removed

/-- `to_remove` after the loop (started from the empty set). -/
def resolve (prio : String → Int) (edges : List Edge) : Finset String :=
  resolveFrom prio ∅ edges

/-! ## Alignment result parser (report-file loop) -/

/-- The body of the report-parsing loop for one row (the tab-separated field
list of one stripped line).  `stem` models `Path(...).stem` and `pyFloat`
models Python `float(...)` with scores read as exact rationals; both are
parameters because their innards are filesystem and float concerns the
parser only pipes through. -/
def rowEdge (stem : String → String) (pyFloat : String → Option ℚ) (threshold : ℚ)
    (parts : List String) : Option Edge :=
  if parts.length < 6 then none
  else
    let query_id := stem (parts.getD 0 "")
    let target_id := stem (parts.getD 1 "")
    if query_id = target_id then none
    else
      match pyFloat (parts.getD 4 ""), pyFloat (parts.getD 5 "") with
      | some qtm, some ttm =>
        if threshold < max qtm ttm then some (query_id, target_id, max qtm ttm)
        else none
      | _, _ => none

/-- `redundant_pairs`: the loop over report rows in file order, each row
contributing at most one edge; a malformed row yields `none` from `rowEdge`
and is skipped individually, never failing the group. -/
def parseReport (stem : String → String) (pyFloat : String → Option ℚ) (threshold : ℚ)
    (rows : List (List String)) : List Edge :=
  rows.filterMap (rowEdge stem pyFloat threshold)

/-! ## Group comparison control flow (`run_foldseek_comparison`) -/

/-- How the `subprocess.run` invocation of FoldSeek ends: success, the
`CalledProcessError` the code catches, or any other exception (for example
`FileNotFoundError` when the binary is absent), which nothing catches. -/
inductive OracleOutcome
  | ok
  | calledProcessError
  | otherError
deriving DecidableEq

/-- The environment of one invocation, from the point where the group's
temporary workspace `pdb_tmp` has been created. -/
structure GroupEnv where
  /-- the `struct_list` entries whose `.pdb` file exists -/
  validStructures : List String
  /-- `symlink_to` raised (for example `FileExistsError` on a stale link) -/
  symlinkRaises : Bool
  oracle : OracleOutcome
  reportExists : Bool
  reportRows : List (List String)

/-- The outcome of one invocation: the returned removal set (`none` when an
exception escaped the function) and whether `pdb_tmp` was removed before
control left the function. -/
structure RunOutcome where
  result : Option (Finset String)
  tmpRemoved : Bool
deriving DecidableEq

/-- `run_foldseek_comparison` from the point where `pdb_tmp` exists.  The
code calls `shutil.rmtree` on four return paths (too few valid structures,
caught `CalledProcessError`, missing report file, normal completion) but has
no `finally`, so an uncaught exception propagates with the workspace left
behind.  `prio` stands for the `struct_priority_map` lookup built from the
valid structures' files. -/
def run_foldseek_comparison (stem : String → String) (pyFloat : String → Option ℚ)
    (threshold : ℚ) (prio : String → Int) (env : GroupEnv) : RunOutcome :=
  if env.symlinkRaises then ⟨none, false⟩
  else if env.validStructures.length ≤ 1 then ⟨some ∅, true⟩
  else
    match env.oracle with
    | .calledProcessError => ⟨some ∅, true⟩
    | .otherError => ⟨none, false⟩
    | .ok =>
      if env.reportExists then
        ⟨some (resolve prio (parseReport stem pyFloat threshold env.reportRows)), true⟩
      else ⟨some ∅, true⟩

/-! ## Deletion loop (`remove_redundant_data`) -/

/-- The file system as the deletion loop observes it: which files exist and
which `os.remove` calls raise. -/
structure FSEnv where
  pdbExists : String → Bool
  npyExists : String → Bool
  pdbRemoveRaises : String → Bool
  npyRemoveRaises : String → Bool

/-- Whether the `try` body for one structure raises: `os.remove` is only
called on files that exist, and a raise on the `.pdb` skips the `.npy`. -/
def deletionRaises (fs : FSEnv) (s : String) : Bool :=
  if fs.pdbExists s && fs.pdbRemoveRaises s then true
  else fs.npyExists s && fs.npyRemoveRaises s

/-- `removed_details` after the loop over `to_remove` (the Python set's
iteration order given as a list): a structure is appended exactly when its
deletion attempt did not raise — in particular also when neither of its
files existed and nothing was deleted. -/
def removed_details (fs : FSEnv) (to_remove : List String) : List String :=
  to_remove.filter (fun s => !(deletionRaises fs s))

/-! ## Dataset reconciler (tail of `main`) -/

/-- One row of the metadata CSV as the reconciler sees it: the `Name` and
`Bioassembly` columns it filters and sorts on, plus the untouched remainder
of the row. -/
structure MetaRow where
  name : String
  bioassembly : Int
  rest : List String
deriving DecidableEq

/-- The `sort_values(by=["Name", "Bioassembly"])` key order: lexicographic
on the two columns.  Sorting on several columns goes through a stable
lexicographic sort, which the stable `List.insertionSort` models. -/
def metaLe (r s : MetaRow) : Prop :=
  r.name < s.name ∨ (r.name = s.name ∧ r.bioassembly ≤ s.bioassembly)

instance : DecidableRel metaLe := fun r s => by
  unfold metaLe
  infer_instance

/-- The reconciliation step on the loaded table:
`processed_df[processed_df["Name"].isin(leftover_files)]` followed by
`sort_values(by=["Name", "Bioassembly"])`. -/
def reconcile (leftover : List String) (table : List MetaRow) : List MetaRow :=
  List.insertionSort metaLe (table.filter (fun r => leftover.contains r.name))

instance : IsTotal MetaRow metaLe :=
  ⟨fun r s => by
    unfold metaLe
    rcases lt_trichotomy r.name s.name with h | h | h
    · exact Or.inl (Or.inl h)
    · rcases le_total r.bioassembly s.bioassembly with hb | hb
      · exact Or.inl (Or.inr ⟨h, hb⟩)
      · exact Or.inr (Or.inr ⟨h.symm, hb⟩)
    · exact Or.inr (Or.inl h)⟩

instance : IsTrans MetaRow metaLe :=
  ⟨fun a b c hab hbc => by
    unfold metaLe at *
    rcases hab with h1 | ⟨h1, h1b⟩ <;> rcases hbc with h2 | ⟨h2, h2b⟩
    · exact Or.inl (h1.trans h2)
    · exact Or.inl (h2 ▸ h1)
    · exact Or.inl (h1 ▸ h2)
    · exact Or.inr ⟨h1.trans h2, h1b.trans h2b⟩⟩

/-! ## Theorems -/

/-- Every step of the greedy loop only grows the removal set. -/
theorem resolveStep_subset (prio : String → Int) (removed : Finset String) (e : Edge) :
    removed ⊆ resolveStep prio removed e := by
  unfold resolveStep
  split
  · exact Finset.Subset.refl _
  · split
    · exact Finset.subset_insert _ _
    · exact Finset.subset_insert _ _

/-- The whole greedy pass only grows the removal set. -/
theorem subset_resolveFrom (prio : String → Int) (edges : List Edge) :
    ∀ removed : Finset String, removed ⊆ resolveFrom prio removed edges := by
  induction edges with
  | nil => intro removed; exact Finset.Subset.refl _
  | cons e rest ih =>
    intro removed
    exact (resolveStep_subset prio removed e).trans (ih (resolveStep prio removed e))

/-- Splitting a greedy pass at a list split point. -/
theorem resolveFrom_append (prio : String → Int) (l1 l2 : List Edge)
    (removed : Finset String) :
    resolveFrom prio removed (l1 ++ l2) = resolveFrom prio (resolveFrom prio removed l1) l2 :=
  List.foldl_append _ _ _ _

/-- A structure that strictly beats the other endpoint of every edge it
occurs on is never inserted by one step. -/
theorem not_mem_resolveStep (prio : String → Int) (removed : Finset String) (e : Edge)
    (a : String) (ha : a ∉ removed)
    (h1 : e.1 = a → prio e.2.1 < prio a)
    (h2 : e.2.1 = a → prio e.1 ≤ prio a) :
    a ∉ resolveStep prio removed e := by
  unfold resolveStep
  split
  · exact ha
  · split
    · intro hmem
      rcases Finset.mem_insert.mp hmem with h | h
      · subst h
        have := h2 rfl
        omega
      · exact ha h
    · intro hmem
      rcases Finset.mem_insert.mp hmem with h | h
      · subst h
        have := h1 rfl
        omega
      · exact ha h

/-- A structure that strictly beats the other endpoint of every edge it
occurs on survives the whole pass. -/
theorem not_mem_resolveFrom (prio : String → Int) (a : String) :
    ∀ (edges : List Edge) (removed : Finset String), a ∉ removed →
      (∀ e ∈ edges, (e.1 = a → prio e.2.1 < prio a) ∧ (e.2.1 = a → prio e.1 ≤ prio a)) →
      a ∉ resolveFrom prio removed edges
  | [], _, ha, _ => ha
  | e :: rest, removed, ha, h => by
    have hstep := not_mem_resolveStep prio removed e a ha
      (h e (List.mem_cons_self e rest)).1 (h e (List.mem_cons_self e rest)).2
    exact not_mem_resolveFrom prio a rest (resolveStep prio removed e) hstep
      (fun e' he' => h e' (List.mem_cons_of_mem _ he'))

/-- The pass never marks anything outside the edge endpoints and the
starting set. -/
theorem resolveFrom_subset_endpoints (prio : String → Int) (U : Finset String) :
    ∀ (edges : List Edge) (removed : Finset String), removed ⊆ U →
      (∀ e ∈ edges, e.1 ∈ U ∧ e.2.1 ∈ U) →
      resolveFrom prio removed edges ⊆ U
  | [], _, hrem, _ => hrem
  | e :: rest, removed, hrem, h => by
    have hstep : resolveStep prio removed e ⊆ U := by
      unfold resolveStep
      split
      · exact hrem
      · split
        · exact Finset.insert_subset_iff.mpr ⟨(h e (List.mem_cons_self e rest)).2, hrem⟩
        · exact Finset.insert_subset_iff.mpr ⟨(h e (List.mem_cons_self e rest)).1, hrem⟩
    exact resolveFrom_subset_endpoints prio U rest (resolveStep prio removed e) hstep
      (fun e' he' => h e' (List.mem_cons_of_mem _ he'))

/-- If some edge pairs the maximum-priority structure `a` against `x`, then
`x` ends up removed (provided `a` beats every neighbour it meets). -/
theorem pair_loser_removed (prio : String → Int) (a x : String)
    (hlt : prio x < prio a) (edges : List Edge)
    (hmax : ∀ e ∈ edges, (e.1 = a → prio e.2.1 < prio a) ∧ (e.2.1 = a → prio e.1 ≤ prio a))
    (hcov : ∃ e ∈ edges, (e.1 = a ∧ e.2.1 = x) ∨ (e.1 = x ∧ e.2.1 = a)) :
    x ∈ resolve prio edges := by
  obtain ⟨e, he, hor⟩ := hcov
  obtain ⟨l1, l2, rfl⟩ := List.append_of_mem he
  rw [resolve, resolveFrom_append]
  set s1 := resolveFrom prio ∅ l1 with hs1
  have hna : a ∉ s1 := by
    rw [hs1]
    exact not_mem_resolveFrom prio a l1 ∅ (Finset.not_mem_empty a)
      (fun e' he' => hmax e' (List.mem_append_left _ he'))
  by_cases hx : x ∈ s1
  · exact subset_resolveFrom prio (e :: l2) s1 hx
  · have hstep : x ∈ resolveStep prio s1 e := by
      unfold resolveStep
      rcases hor with ⟨hq, ht⟩ | ⟨hq, ht⟩
      · rw [if_neg (by rw [hq, ht]; tauto)]
        rw [if_pos (by rw [hq, ht]; exact hlt)]
        rw [ht]
        exact Finset.mem_insert_self x s1
      · rw [if_neg (by rw [hq, ht]; tauto)]
        rw [if_neg (by rw [hq, ht]; omega)]
        rw [hq]
        exact Finset.mem_insert_self x s1
    have : resolveFrom prio s1 (e :: l2) = resolveFrom prio (resolveStep prio s1 e) l2 := rfl
    rw [this]
    exact subset_resolveFrom prio l2 (resolveStep prio s1 e) hstep

/-- Core of the 3-clique property: with `a` the strict maximum and edges
confined to `{a, b, c}` with no self-loops, covering the pairs `a–b` and
`a–c` forces the final removal set to be exactly `{b, c}`. -/
theorem clique3_core (prio : String → Int) (a b c : String) (edges : List Edge)
    (hab : a ≠ b) (hac : a ≠ c)
    (hpb : prio b < prio a) (hpc : prio c < prio a)
    (hends : ∀ e ∈ edges,
      (e.1 = a ∨ e.1 = b ∨ e.1 = c) ∧ (e.2.1 = a ∨ e.2.1 = b ∨ e.2.1 = c) ∧ e.1 ≠ e.2.1)
    (hcov_ab : ∃ e ∈ edges, (e.1 = a ∧ e.2.1 = b) ∨ (e.1 = b ∧ e.2.1 = a))
    (hcov_ac : ∃ e ∈ edges, (e.1 = a ∧ e.2.1 = c) ∨ (e.1 = c ∧ e.2.1 = a)) :
    resolve prio edges = {b, c} := by
  have hmax : ∀ e ∈ edges,
      (e.1 = a → prio e.2.1 < prio a) ∧ (e.2.1 = a → prio e.1 ≤ prio a) := by
    intro e he
    obtain ⟨h1, h2, hne⟩ := hends e he
    constructor
    · intro hq
      rcases h2 with h | h | h
      · exact absurd (hq.trans h.symm) hne
      · rw [h]; exact hpb
      · rw [h]; exact hpc
    · intro ht
      rcases h1 with h | h | h
      · rw [h]
      · rw [h]; exact hpb.le
      · rw [h]; exact hpc.le
  apply Finset.Subset.antisymm
  · have hU : resolve prio edges ⊆ {a, b, c} :=
      resolveFrom_subset_endpoints prio {a, b, c} edges ∅ (Finset.empty_subset _)
        (fun e he => by
          obtain ⟨h1, h2, _⟩ := hends e he
          constructor <;> simp [Finset.mem_insert] <;> tauto)
    have hna : a ∉ resolve prio edges :=
      not_mem_resolveFrom prio a edges ∅ (Finset.not_mem_empty a) hmax
    intro x hx
    have hx3 := hU hx
    simp only [Finset.mem_insert, Finset.mem_singleton] at hx3 ⊢
    rcases hx3 with rfl | h | h
    · exact absurd hx hna
    · exact Or.inl h
    · exact Or.inr h
  · intro x hx
    simp only [Finset.mem_insert, Finset.mem_singleton] at hx
    rcases hx with rfl | rfl
    · exact pair_loser_removed prio a x hpb edges hmax hcov_ab
    · exact pair_loser_removed prio a x hpc edges hmax hcov_ac

/-- C1: the resolver consumes the edge list in discovery order, one edge at
a time; an edge with an already-removed endpoint is skipped, otherwise
exactly one endpoint — the target when `priority[q] > priority[t]`, the
query otherwise (ties removing the query) — moves into the removal set,
which only ever grows (ids are never un-removed, so each id transitions
from retained to removed at most once). -/
theorem greedy_pass_behavior (prio : String → Int) (removed : Finset String)
    (q t : String) (w : ℚ) (edges : List Edge) :
    resolveFrom prio removed ((q, t, w) :: edges)
        = resolveFrom prio (resolveStep prio removed (q, t, w)) edges ∧
    (q ∈ removed ∨ t ∈ removed → resolveStep prio removed (q, t, w) = removed) ∧
    (q ∉ removed → t ∉ removed →
      resolveStep prio removed (q, t, w)
          = insert (if prio q > prio t then t else q) removed ∧
        (if prio q > prio t then t else q) ∉ removed) ∧
    removed ⊆ resolveFrom prio removed edges := by
  refine ⟨rfl, ?_, ?_, subset_resolveFrom prio edges removed⟩
  · intro h
    unfold resolveStep
    rw [if_pos h]
  · intro hq ht
    unfold resolveStep
    rw [if_neg (by tauto)]
    constructor
    · by_cases hlt : prio t < prio q
      · rw [if_pos hlt, if_pos hlt]
      · rw [if_neg hlt, if_neg hlt]
    · split <;> assumption

/-- C1 witness: one concrete step on a tie removes the query. -/
theorem greedy_pass_behavior_witness :
    resolveStep (fun _ => (0 : Int)) ∅ ("A", "B", (1 : ℚ))
      = insert "A" (∅ : Finset String) := by
  have h := ((greedy_pass_behavior (fun _ => (0 : Int)) ∅ "A" "B" 1 []).2.2.1
    (Finset.not_mem_empty _) (Finset.not_mem_empty _)).1
  simpa using h

/-- C2: in a group of three structures with pairwise distinct priorities
whose edge list stays inside the group, has no self-loops, and covers every
unordered pair, the greedy pass removes exactly the two structures other
than the maximum-priority one, and the outcome is invariant under any
permutation of the edge list. -/
theorem clique3_resolution (prio : String → Int) (a b c : String) (edges : List Edge)
    (hab : a ≠ b) (hac : a ≠ c) (hbc : b ≠ c)
    (hpb : prio b < prio a) (hpc : prio c < prio a) (hpbc : prio b ≠ prio c)
    (hends : ∀ e ∈ edges,
      (e.1 = a ∨ e.1 = b ∨ e.1 = c) ∧ (e.2.1 = a ∨ e.2.1 = b ∨ e.2.1 = c) ∧ e.1 ≠ e.2.1)
    (hcov_ab : ∃ e ∈ edges, (e.1 = a ∧ e.2.1 = b) ∨ (e.1 = b ∧ e.2.1 = a))
    (hcov_ac : ∃ e ∈ edges, (e.1 = a ∧ e.2.1 = c) ∨ (e.1 = c ∧ e.2.1 = a))
    (hcov_bc : ∃ e ∈ edges, (e.1 = b ∧ e.2.1 = c) ∨ (e.1 = c ∧ e.2.1 = b)) :
    resolve prio edges = {b, c} ∧
      ∀ edges2 : List Edge, edges2.Perm edges → resolve prio edges2 = {b, c} := by
  constructor
  · exact clique3_core prio a b c edges hab hac hpb hpc hends hcov_ab hcov_ac
  · intro edges2 hperm
    refine clique3_core prio a b c edges2 hab hac hpb hpc ?_ ?_ ?_
    · intro e he
      exact hends e (hperm.subset he)
    · obtain ⟨e, he, h⟩ := hcov_ab
      exact ⟨e, hperm.mem_iff.mpr he, h⟩
    · obtain ⟨e, he, h⟩ := hcov_ac
      exact ⟨e, hperm.mem_iff.mpr he, h⟩

/-- C2 witness: a concrete 3-clique in one discovery order resolves to the
two lower-priority members. -/
theorem clique3_resolution_witness :
    resolve (fun s => if s = "A" then (3 : Int) else if s = "B" then 2 else 1)
      [("A", "B", 1), ("B", "C", 1), ("A", "C", 1)] = {"B", "C"} :=
  (clique3_resolution (fun s => if s = "A" then (3 : Int) else if s = "B" then 2 else 1)
    "A" "B" "C" [("A", "B", 1), ("B", "C", 1), ("A", "C", 1)]
    (by decide) (by decide) (by decide) (by decide) (by decide) (by decide)
    (by
      intro e he
      simp only [List.mem_cons, List.not_mem_nil, or_false] at he
      rcases he with rfl | rfl | rfl <;> refine ⟨by tauto, by tauto, by decide⟩)
    ⟨("A", "B", 1), by simp, Or.inl ⟨rfl, rfl⟩⟩
    ⟨("A", "C", 1), by simp, Or.inl ⟨rfl, rfl⟩⟩
    ⟨("B", "C", 1), by simp, Or.inl ⟨rfl, rfl⟩⟩).1

/-- The source score computation equals completeness base plus the
spec-worded type adjustment. -/
theorem structure_priority_formula_aux (s : String) (t m : Int) :
    structure_priority s t m = t * 500 - m * 100 + specTypeAdjustment s := by
  unfold structure_priority specTypeAdjustment
  cases hb : (markerSplit "-BIO" s).isSome with
  | true =>
    simp only [hb, if_true]
    cases h : instanceNum "-BIO" s with
    | none => simp [h]
    | some n => simp only [h, Option.getD_some]; ring
  | false =>
    simp only [hb, Bool.false_eq_true, if_false]
    cases ha : (markerSplit "-ASU" s).isSome with
    | true =>
      simp only [ha, if_true]
      cases h : instanceNum "-ASU" s with
      | none => simp [h]
      | some n => simp only [h, Option.getD_some]; ring
    | false =>
      simp only [ha, Bool.false_eq_true, if_false]
      ring

/-- C3: the priority score is the pure function
`total * 500 - missing * 100` plus the type adjustment — `+1000 - n` for a
BIO marker, `+500 - n` for an ASU marker otherwise, the bare bonus when the
instance number does not parse (`getD 0` in `specTypeAdjustment`), and no
adjustment for an untyped name; identical inputs give identical scores. -/
theorem priority_score_formula (s : String) (t m : Int) :
    structure_priority s t m = t * 500 - m * 100 + specTypeAdjustment s :=
  structure_priority_formula_aux s t m

/-- C4 counterexample: a BIO structure with fewer total residues and a
completeness-score deficit of only 400 (< 500) that nevertheless scores
strictly below the ASU structure, because its instance-number penalty
(`-BIO200`) eats the type-bonus gap. -/
theorem bio_vs_asu_counterexample :
    (markerSplit "-BIO" "X-BIO200").isSome = true ∧
    (markerSplit "-ASU" "X-BIO200").isSome = false ∧
    (markerSplit "-ASU" "X-ASU1").isSome = true ∧
    (markerSplit "-BIO" "X-ASU1").isSome = false ∧
    (99 : Int) < 100 ∧
    (100 * 500 - 1 * 100 : Int) - (99 * 500 - 0 * 100) < 500 ∧
    ¬ structure_priority "X-ASU1" 100 1 < structure_priority "X-BIO200" 99 0 := by
  decide

/-- C4 (amended): the BIO structure outranks the ASU structure whenever the
completeness-score deficit plus the difference of instance-number penalties
(BIO minus ASU, an unparsable number counting as no penalty) stays strictly
below the 500-point type-bonus gap. -/
theorem bio_outranks_asu_within_gap (b a : String) (tb mb ta ma : Int)
    (hbioB : (markerSplit "-BIO" b).isSome = true)
    (hasuA : (markerSplit "-ASU" a).isSome = true)
    (hnotBioA : (markerSplit "-BIO" a).isSome = false)
    (hfewer : tb < ta)
    (hgap : (ta * 500 - ma * 100) - (tb * 500 - mb * 100)
        + (instanceNum "-BIO" b).getD 0 - (instanceNum "-ASU" a).getD 0 < 500) :
    structure_priority a ta ma < structure_priority b tb mb := by
  have hb := structure_priority_formula_aux b tb mb
  have ha := structure_priority_formula_aux a ta ma
  unfold specTypeAdjustment at hb ha
  rw [hbioB, if_pos rfl] at hb
  rw [hnotBioA] at ha
  rw [hasuA] at ha
  simp only [Bool.false_eq_true, if_false, if_true] at ha
  rw [hb, ha]
  linarith

/-- C4 witness: concrete structures inside the amended gap. -/
theorem bio_outranks_asu_within_gap_witness :
    structure_priority "X-ASU1" 100 1 < structure_priority "X-BIO1" 99 0 :=
  bio_outranks_asu_within_gap "X-BIO1" "X-ASU1" 99 0 100 1
    (by decide) (by decide) (by decide) (by decide) (by decide)

/-- One report row yields an edge exactly under the row conditions. -/
theorem rowEdge_eq_some_iff (stem : String → String) (pf : String → Option ℚ)
    (th : ℚ) (parts : List String) (e : Edge) :
    rowEdge stem pf th parts = some e ↔
      6 ≤ parts.length ∧
      stem (parts.getD 0 "") ≠ stem (parts.getD 1 "") ∧
      ∃ qtm ttm, pf (parts.getD 4 "") = some qtm ∧ pf (parts.getD 5 "") = some ttm ∧
        th < max qtm ttm ∧
        e = (stem (parts.getD 0 ""), stem (parts.getD 1 ""), max qtm ttm) := by
  unfold rowEdge
  rcases Nat.lt_or_ge parts.length 6 with hlen | hlen
  · rw [if_pos hlen]
    constructor
    · intro h; exact Option.noConfusion h
    · rintro ⟨h6, -⟩; omega
  · rw [if_neg (Nat.not_lt.mpr hlen)]
    by_cases hqt : stem (parts.getD 0 "") = stem (parts.getD 1 "")
    · rw [if_pos hqt]
      constructor
      · intro h; exact Option.noConfusion h
      · rintro ⟨-, hne, -⟩; exact absurd hqt hne
    · rw [if_neg hqt]
      cases h4 : pf (parts.getD 4 "") with
      | none =>
        constructor
        · intro h; exact Option.noConfusion h
        · rintro ⟨-, -, qtm, ttm, hq, -⟩; exact Option.noConfusion hq
      | some qtm =>
        cases h5 : pf (parts.getD 5 "") with
        | none =>
          constructor
          · intro h; exact Option.noConfusion h
          · rintro ⟨-, -, qtm2, ttm2, hq, ht, -⟩; exact Option.noConfusion ht
        | some ttm =>
          by_cases hth : th < max qtm ttm
          · constructor
            · intro h
              have h2 : (if th < max qtm ttm then
                  some ((stem (parts.getD 0 ""), stem (parts.getD 1 ""), max qtm ttm) : Edge)
                else none) = some e := h
              rw [if_pos hth] at h2
              exact ⟨hlen, hqt, qtm, ttm, rfl, rfl, hth, (Option.some.inj h2).symm⟩
            · rintro ⟨-, -, qtm2, ttm2, hq, ht, hth2, rfl⟩
              cases hq
              cases ht
              show (if th < max qtm ttm then
                  some ((stem (parts.getD 0 ""), stem (parts.getD 1 ""), max qtm ttm) : Edge)
                else none) = _
              rw [if_pos hth2]
          · constructor
            · intro h
              have h2 : (if th < max qtm ttm then
                  some ((stem (parts.getD 0 ""), stem (parts.getD 1 ""), max qtm ttm) : Edge)
                else none) = some e := h
              rw [if_neg hth] at h2
              exact Option.noConfusion h2
            · rintro ⟨-, -, qtm2, ttm2, hq, ht, hth2, -⟩
              cases hq
              cases ht
              exact absurd hth2 hth

/-- C5: an edge is produced from the report exactly for a row with at least
six fields, distinct stemmed query and target ids, both directional scores
parsing, and their maximum strictly above the threshold; the edge weight is
that maximum.  In particular a maximum exactly equal to the threshold
yields no edge (second conjunct), and a malformed row only loses its own
edge (`parseReport` maps rows independently). -/
theorem report_edges_iff (stem : String → String) (pf : String → Option ℚ)
    (th : ℚ) (rows : List (List String)) (e : Edge) :
    (e ∈ parseReport stem pf th rows ↔
      ∃ parts ∈ rows,
        6 ≤ parts.length ∧
        stem (parts.getD 0 "") ≠ stem (parts.getD 1 "") ∧
        ∃ qtm ttm, pf (parts.getD 4 "") = some qtm ∧ pf (parts.getD 5 "") = some ttm ∧
          th < max qtm ttm ∧
          e = (stem (parts.getD 0 ""), stem (parts.getD 1 ""), max qtm ttm)) ∧
    ∀ parts qtm ttm, pf (parts.getD 4 "") = some qtm → pf (parts.getD 5 "") = some ttm →
      max qtm ttm = th → rowEdge stem pf th parts = none := by
  constructor
  · rw [parseReport, List.mem_filterMap]
    constructor
    · rintro ⟨parts, hmem, h⟩
      exact ⟨parts, hmem, (rowEdge_eq_some_iff stem pf th parts e).mp h⟩
    · rintro ⟨parts, hmem, h⟩
      exact ⟨parts, hmem, (rowEdge_eq_some_iff stem pf th parts e).mpr h⟩
  · intro parts qtm ttm hq ht hmax
    cases hr : rowEdge stem pf th parts with
    | none => rfl
    | some e2 =>
      obtain ⟨-, -, qtm2, ttm2, hq2, ht2, hth, -⟩ :=
        (rowEdge_eq_some_iff stem pf th parts e2).mp hr
      rw [hq] at hq2
      rw [ht] at ht2
      cases hq2
      cases ht2
      rw [hmax] at hth
      exact absurd hth (lt_irrefl th)

/-- C5 witness: a row whose two directional scores both equal the threshold
produces no edge. -/
theorem report_edges_iff_witness :
    rowEdge id (fun v => if v = "1.0" then some (1 : ℚ) else none)
      1 ["q", "t", "x", "y", "1.0", "1.0"] = none :=
  (report_edges_iff id (fun v => if v = "1.0" then some (1 : ℚ) else none)
      1 [] ("q", "t", 0)).2
    ["q", "t", "x", "y", "1.0", "1.0"] 1 1
    (by decide) (by decide) (by decide)

/-- A tensor with a residue row that lacks the backbone slot fails the
column-1 indexing. -/
theorem chainCounts_eq_none (coords : Atom37) (res : Residue)
    (hres : res ∈ coords) (hlen : res.length < 2) :
    chainCounts coords = none := by
  unfold chainCounts
  rw [if_neg]
  intro hall
  rw [List.all_eq_true] at hall
  have h := hall res hres
  rw [decide_eq_true_iff] at h
  omega

/-- The chain loop collapses to `(0, 0)` as soon as one present tensor is
malformed, whatever was accumulated before. -/
theorem scanChains_eq_zero (coords : Atom37) :
    ∀ (chains : List ChainData) (total missing : Nat),
      (some coords) ∈ chains → chainCounts coords = none →
      scanChains chains total missing = (0, 0)
  | [], _, _, h, _ => absurd h (List.not_mem_nil _)
  | none :: rest, total, missing, h, hc => by
    have hrest : some coords ∈ rest := by
      rcases List.mem_cons.mp h with h1 | h1
      · exact absurd h1 (by simp)
      · exact h1
    simp only [scanChains]
    exact scanChains_eq_zero coords rest total missing hrest hc
  | some c :: rest, total, missing, h, hc => by
    simp only [scanChains]
    rcases List.mem_cons.mp h with h1 | h1
    · have hcc : c = coords := by
        injection h1.symm
      rw [hcc, hc]
    · cases hcase : chainCounts c with
      | none => rfl
      | some p =>
        obtain ⟨t, m⟩ := p
        exact scanChains_eq_zero coords rest (total + t) (missing + m) h1 hc

/-- C6: the completeness scorer never propagates an error — an unreadable
coordinate file (`np.load` raised) and a structurally malformed tensor
(a residue row without the backbone slot at index 1, covering wrong shapes)
both yield `(0, 0)` for the record. -/
theorem completeness_fails_soft (data : Option (List ChainData))
    (h : data = none ∨
      ∃ chains coords res, data = some chains ∧ (some coords) ∈ chains ∧
        res ∈ coords ∧ res.length < 2) :
    get_structure_completeness data = (0, 0) := by
  rcases h with rfl | ⟨chains, coords, res, rfl, hcm, hrm, hrl⟩
  · rfl
  · unfold get_structure_completeness
    exact scanChains_eq_zero coords chains 0 0 hcm (chainCounts_eq_none coords res hrm hrl)

/-- C6 witness: a chain whose tensor has a residue row without a backbone
slot scores `(0, 0)`. -/
theorem completeness_fails_soft_witness :
    get_structure_completeness (some [some [[]]]) = (0, 0) :=
  completeness_fails_soft (some [some [[]]])
    (Or.inr ⟨[some [[]]], [[]], [], rfl, by simp, by simp, by simp⟩)

/-- The chain loop keeps the missing count below the total count. -/
theorem scanChains_le :
    ∀ (chains : List ChainData) (total missing : Nat), missing ≤ total →
      (scanChains chains total missing).2 ≤ (scanChains chains total missing).1
  | [], _, _, h => h
  | none :: rest, total, missing, h => by
    simp only [scanChains]
    exact scanChains_le rest total missing h
  | some c :: rest, total, missing, h => by
    simp only [scanChains]
    cases hcase : chainCounts c with
    | none => exact Nat.le_refl 0
    | some p =>
      obtain ⟨ct, cm⟩ := p
      have hcle : cm ≤ ct := by
        unfold chainCounts at hcase
        split at hcase
        · injection hcase with heq
          injection heq with h1 h2
          rw [← h1, ← h2]
          exact List.length_filter_le _ _
        · exact Option.noConfusion hcase
      exact scanChains_le rest (total + ct) (missing + cm) (Nat.add_le_add h hcle)

/-- C7: on every input — readable or not, well-formed or not — the scorer's
pair satisfies `missing_residues ≤ total_residues`; both components live in
`ℕ`, so they are non-negative integers by construction. -/
theorem completeness_bounds (data : Option (List ChainData)) :
    (get_structure_completeness data).2 ≤ (get_structure_completeness data).1 := by
  cases data with
  | none => exact Nat.le_refl 0
  | some chains => exact scanChains_le chains 0 0 (Nat.le_refl 0)

/-- C8 counterexample: an invocation that has created the workspace, stages
two valid structures and then hits an uncaught oracle exception (for example
`FileNotFoundError` from `subprocess.run`) exits with the workspace still on
disk — the claim's "removed on any raised exception" fails. -/
theorem workspace_leak_counterexample :
    (run_foldseek_comparison id (fun _ => none) 1 (fun _ => 0)
      ⟨["A", "B"], false, OracleOutcome.otherError, false, []⟩).tmpRemoved = false := by
  decide

/-- C8 (amended): the workspace is removed on every exit path the code
handles — too few valid structures, caught oracle `CalledProcessError`,
missing result file, and normal completion — that is, whenever no uncaught
exception (symlink failure or a non-`CalledProcessError` oracle error)
occurs. -/
theorem workspace_removed_on_handled_paths (stem : String → String)
    (pf : String → Option ℚ) (th : ℚ) (prio : String → Int) (env : GroupEnv)
    (hsym : env.symlinkRaises = false)
    (horacle : env.oracle ≠ OracleOutcome.otherError) :
    (run_foldseek_comparison stem pf th prio env).tmpRemoved = true := by
  unfold run_foldseek_comparison
  rw [hsym]
  simp only [Bool.false_eq_true, if_false]
  by_cases hlen : env.validStructures.length ≤ 1
  · rw [if_pos hlen]
  · rw [if_neg hlen]
    cases henv : env.oracle with
    | ok =>
      by_cases hrep : env.reportExists = true
      · rw [if_pos hrep]
      · rw [if_neg hrep]
    | calledProcessError => rfl
    | otherError => exact absurd henv horacle

/-- C8 witness: a successfully completing invocation removes the
workspace. -/
theorem workspace_removed_witness :
    (run_foldseek_comparison id (fun _ => none) 1 (fun _ => 0)
      ⟨["A", "B"], false, OracleOutcome.ok, true, []⟩).tmpRemoved = true :=
  workspace_removed_on_handled_paths id (fun _ => none) 1 (fun _ => 0)
    ⟨["A", "B"], false, OracleOutcome.ok, true, []⟩ rfl (by decide)

/-- C9: the reconciliation step is idempotent — filtering an
already-filtered, already-sorted table against the same surviving-id set
and stably re-sorting it reproduces it exactly. -/
theorem reconcile_idempotent (leftover : List String) (table : List MetaRow) :
    reconcile leftover (reconcile leftover table) = reconcile leftover table := by
  unfold reconcile
  have hfilter :
      (List.insertionSort metaLe (table.filter fun r => leftover.contains r.name)).filter
          (fun r => leftover.contains r.name)
        = List.insertionSort metaLe (table.filter fun r => leftover.contains r.name) := by
    rw [List.filter_eq_self]
    intro a ha
    rw [List.mem_insertionSort] at ha
    exact (List.mem_filter.mp ha).2
  rw [hfilter]
  exact List.Sorted.insertionSort_eq (List.sorted_insertionSort metaLe _)

/-- C10: every id in the removal set whose deletion attempt does not raise
is appended to `removed_details` (and so counted in the `removed k/n`
summary) — in particular an id with no `.pdb` and no `-atom37.npy` file on
disk, where nothing is deleted and nothing can raise; an id is excluded
exactly when its deletion attempt raises. -/
theorem removed_reported_even_without_files (fs : FSEnv) (to_remove : List String)
    (s : String) (hmem : s ∈ to_remove)
    (hpdb : fs.pdbExists s = false) (hnpy : fs.npyExists s = false) :
    s ∈ removed_details fs to_remove ∧
      ∀ x, x ∈ removed_details fs to_remove ↔ x ∈ to_remove ∧ deletionRaises fs x = false := by
  have hchar : ∀ x, x ∈ removed_details fs to_remove ↔
      x ∈ to_remove ∧ deletionRaises fs x = false := by
    intro x
    unfold removed_details
    rw [List.mem_filter, Bool.not_eq_eq_eq_not, Bool.not_true]
  refine ⟨(hchar s).mpr ⟨hmem, ?_⟩, hchar⟩
  unfold deletionRaises
  rw [hpdb, hnpy]
  simp

/-- C10 witness: an id with neither file present is still reported
removed. -/
theorem removed_reported_witness :
    "A" ∈ removed_details
      ⟨fun _ => false, fun _ => false, fun _ => false, fun _ => false⟩ ["A"] :=
  (removed_reported_even_without_files
    ⟨fun _ => false, fun _ => false, fun _ => false, fun _ => false⟩ ["A"] "A"
    (by simp) rfl rfl).1

end SnacDB
